import Mathlib

/-!
Verification development for the RainPredRNN2 repository.

This file gives a shallow embedding of the algorithmic core of the
repository (file `src/source/old2/app_3_fix_datestare.py`, with the
window-indexer and normalizer shared with `src/source/app_5.2.py`):

* the window indexer of `RadarDataset.__init__` (file-validity cache,
  window scan with early break, statistics);
* the frame normalizer `normalize_image` (numpy semantics modelled with
  an explicit NaN/infinity value type; `np.log1p` is an external library
  function and is a parameter of the embedding);
* the dual-memory cell `SpatiotemporalLSTMCell.forward` over rational
  tensors indexed by batch/channel/height/width, with `torch.sigmoid`,
  `torch.tanh` and the square root inside `F.cosine_similarity` as
  function parameters (they are transcendental library primitives);
* the zig-zag scheduler `PredRNN_Block.forward` (bottom-up and top-down
  passes, instrumented with a trace of the input fed to each cell);
* the encode-predict-decode driver `RainPredRNN.forward` (control flow
  over abstract encoder/rnn/decoder components) and the final sigmoid
  of `UNet_Decoder.forward`.

Tensors are total functions from `Fin`-indices to `ℚ`; convolutions are
finite sums with explicit zero padding, exactly mirroring the stride-1,
same-padding `nn.Conv2d` instances the source constructs.
-/

namespace RainPred

/-! ## Window indexer (`RadarDataset.__init__`) -/

/-- A file is identified by its (sorted, distinct) path; we use `ℕ`. -/
abbrev FileId := ℕ

/-- The `self.file_validity` dict, as an association list. -/
abbrev Cache := List (FileId × Bool)

/-- Dictionary lookup in `self.file_validity`. -/
def cacheLookup : Cache → FileId → Option Bool
  | [], _ => none
  | (g, b) :: rest, f => if f = g then some b else cacheLookup rest f

/-- One validity check of a single file, with memoization.  `chk f` is the
outcome of `rasterio.open(file)` followed by `src.count > 0` (a failed open
counts as `false`); it is consulted only on a cache miss.  The second
component records the oracle invocations made (instrumentation used to state
that each file is checked at most once). -/
def checkFile (chk : FileId → Bool) (cache : Cache) (calls : List FileId)
    (f : FileId) : Cache × List FileId × Bool :=
  match cacheLookup cache f with
  | some v => (cache, calls, v)
  | none => ((f, chk f) :: cache, calls ++ [f], chk f)

/-- The inner `for i in range(self.seq_length)` loop over one window's files:
checks files in order and breaks at the first invalid one. -/
def checkWindow (chk : FileId → Bool) :
    List FileId → Cache → List FileId → (Cache × List FileId) × Bool
  | [], cache, calls => ((cache, calls), true)
  | f :: fs, cache, calls =>
    if (checkFile chk cache calls f).2.2 then
      checkWindow chk fs (checkFile chk cache calls f).1
        (checkFile chk cache calls f).2.1
    else (((checkFile chk cache calls f).1, (checkFile chk cache calls f).2.1),
      false)

/-- The files `self.files[start_idx + i]` for `i < L`. -/
def windowFiles (files : List FileId) (start L : ℕ) : List FileId :=
  (List.range L).map (fun i => files.getD (start + i) 0)

/-- Accumulated state of the outer scan over start offsets. -/
structure ScanState where
  cache : Cache
  calls : List FileId
  validIndices : List ℕ

/-- Body of `for start_idx in range(self.total_possible_windows)`. -/
def scanStep (chk : FileId → Bool) (files : List FileId) (L : ℕ)
    (st : ScanState) (start : ℕ) : ScanState :=
  { cache := (checkWindow chk (windowFiles files start L) st.cache st.calls).1.1
    calls := (checkWindow chk (windowFiles files start L) st.cache st.calls).1.2
    validIndices :=
      if (checkWindow chk (windowFiles files start L) st.cache st.calls).2 then
        st.validIndices ++ [start]
      else st.validIndices }

/-- `self.total_possible_windows = max(0, len(self.files) - self.seq_length + 1)`. -/
def totalPossibleWindows (n L : ℕ) : ℕ := (max 0 ((n : ℤ) - L + 1)).toNat

/-- The whole window scan of `RadarDataset.__init__`. -/
def datasetScan (chk : FileId → Bool) (files : List FileId) (L : ℕ) : ScanState :=
  (List.range (totalPossibleWindows files.length L)).foldl
    (scanStep chk files L) ⟨[], [], []⟩

/-- The fields `RadarDataset.__init__` stores.  Training-only pieces
(torchvision transforms, augmentation) are out of the embedded core. -/
structure DatasetInfo where
  inputLength : ℕ
  predLength : ℕ
  seqLength : ℕ
  files : List FileId
  fileValidity : Cache
  validIndices : List ℕ
  totalFiles : ℕ
  invalidFiles : ℕ
  totalPossible : ℕ
  validWindows : ℕ
  invalidWindows : ℕ
  deriving DecidableEq, Repr

/-- `RadarDataset.__init__`.  The constructor can in principle surface an
exception to its caller (hence the `Except` result type), but no statement in
its body raises: every path returns normally, so the result is always
`Except.ok`.  Statistics are computed exactly as in the source. -/
def radarDatasetInit (chk : FileId → Bool) (files : List FileId)
    (inputLength predLength : ℕ) : Except String DatasetInfo :=
  let seqLength := inputLength + predLength
  let scan := datasetScan chk files seqLength
  Except.ok
    { inputLength := inputLength
      predLength := predLength
      seqLength := seqLength
      files := files
      fileValidity := scan.cache
      validIndices := scan.validIndices
      totalFiles := files.length
      invalidFiles := (scan.cache.filter (fun p => !p.2)).length
      totalPossible := totalPossibleWindows files.length seqLength
      validWindows := scan.validIndices.length
      invalidWindows :=
        totalPossibleWindows files.length seqLength - scan.validIndices.length }

/-! ### Cache correctness lemmas -/

/-- Every value recorded in the cache is the oracle's verdict. -/
def CacheOK (chk : FileId → Bool) (cache : Cache) : Prop :=
  ∀ f b, cacheLookup cache f = some b → b = chk f

/-- The instrumented call list is exactly the cache's key set, without
duplicates. -/
def CallsOK (cache : Cache) (calls : List FileId) : Prop :=
  calls.Nodup ∧ ∀ f, (cacheLookup cache f).isSome ↔ f ∈ calls

theorem checkFile_val (chk : FileId → Bool) (cache : Cache) (calls : List FileId)
    (f : FileId) (hok : CacheOK chk cache) :
    (checkFile chk cache calls f).2.2 = chk f := by
  unfold checkFile
  cases h : cacheLookup cache f with
  | none => rfl
  | some v => exact hok f v h

theorem checkFile_cacheOK (chk : FileId → Bool) (cache : Cache)
    (calls : List FileId) (f : FileId) (hok : CacheOK chk cache) :
    CacheOK chk (checkFile chk cache calls f).1 := by
  cases h : cacheLookup cache f with
  | some v => simpa [checkFile, h] using hok
  | none =>
    intro g b hg
    simp only [checkFile, h] at hg
    simp only [cacheLookup] at hg
    by_cases hgf : g = f
    · subst hgf
      rw [if_pos rfl] at hg
      exact (Option.some.inj hg).symm
    · rw [if_neg hgf] at hg
      exact hok g b hg

theorem checkFile_callsOK (chk : FileId → Bool) (cache : Cache)
    (calls : List FileId) (f : FileId) (hc : CallsOK cache calls) :
    CallsOK (checkFile chk cache calls f).1 (checkFile chk cache calls f).2.1 := by
  unfold checkFile
  cases h : cacheLookup cache f with
  | none =>
    constructor
    · refine List.Nodup.append hc.1 (List.nodup_singleton f) ?_
      intro g hg hg1
      simp only [List.mem_singleton] at hg1
      subst hg1
      have := (hc.2 g).2 hg
      rw [h] at this
      simp at this
    · intro g
      simp only [cacheLookup, List.mem_append, List.mem_singleton]
      by_cases hgf : g = f
      · subst hgf; simp
      · simp only [hgf, if_false]
        rw [hc.2 g]
        simp [hgf]
  | some v => exact hc

theorem checkFile_preserves (chk : FileId → Bool) (cache : Cache)
    (calls : List FileId) (g f : FileId) (b : Bool)
    (hf : cacheLookup cache f = some b) :
    cacheLookup (checkFile chk cache calls g).1 f = some b := by
  unfold checkFile
  cases h : cacheLookup cache g with
  | some v => exact hf
  | none =>
    simp only [cacheLookup]
    by_cases hfg : f = g
    · subst hfg; rw [hf] at h; cases h
    · simp [hfg, hf]

theorem checkWindow_invariant (chk : FileId → Bool) (ws : List FileId) :
    ∀ cache calls, CacheOK chk cache → CallsOK cache calls →
      CacheOK chk (checkWindow chk ws cache calls).1.1 ∧
      CallsOK (checkWindow chk ws cache calls).1.1
        (checkWindow chk ws cache calls).1.2 ∧
      (checkWindow chk ws cache calls).2 = ws.all chk := by
  induction ws with
  | nil => intro cache calls hok hco; exact ⟨hok, hco, rfl⟩
  | cons f fs ih =>
    intro cache calls hok hco
    have hval := checkFile_val chk cache calls f hok
    have hok2 := checkFile_cacheOK chk cache calls f hok
    have hco2 := checkFile_callsOK chk cache calls f hco
    by_cases hv : (checkFile chk cache calls f).2.2 = true
    · have := ih (checkFile chk cache calls f).1 (checkFile chk cache calls f).2.1
        hok2 hco2
      simp only [checkWindow, hv, if_true]
      refine ⟨this.1, this.2.1, ?_⟩
      rw [this.2.2, List.all_cons, ← hval, hv]
      simp
    · simp only [Bool.not_eq_true] at hv
      simp only [checkWindow, hv, Bool.false_eq_true, if_false]
      refine ⟨hok2, hco2, ?_⟩
      rw [List.all_cons, ← hval, hv]
      simp

theorem scan_fold_invariant (chk : FileId → Bool) (files : List FileId) (L : ℕ)
    (starts : List ℕ) :
    ∀ st : ScanState, CacheOK chk st.cache → CallsOK st.cache st.calls →
      CacheOK chk (starts.foldl (scanStep chk files L) st).cache ∧
      CallsOK (starts.foldl (scanStep chk files L) st).cache
        (starts.foldl (scanStep chk files L) st).calls ∧
      (starts.foldl (scanStep chk files L) st).validIndices =
        st.validIndices ++
          starts.filter (fun s => (windowFiles files s L).all chk) := by
  induction starts with
  | nil => intro st hok hco; exact ⟨hok, hco, by simp⟩
  | cons s starts ih =>
    intro st hok hco
    have hw := checkWindow_invariant chk (windowFiles files s L) st.cache st.calls
      hok hco
    have hwv : (checkWindow chk (windowFiles files s L) st.cache st.calls).2 =
        (windowFiles files s L).all chk := hw.2.2
    have hstep : (scanStep chk files L st s).cache =
        (checkWindow chk (windowFiles files s L) st.cache st.calls).1.1 := rfl
    have hstep2 : (scanStep chk files L st s).calls =
        (checkWindow chk (windowFiles files s L) st.cache st.calls).1.2 := rfl
    have := ih (scanStep chk files L st s) (by rw [hstep]; exact hw.1)
      (by rw [hstep, hstep2]; exact hw.2.1)
    refine ⟨this.1, this.2.1, ?_⟩
    rw [List.foldl_cons, this.2.2, List.filter_cons]
    by_cases hv : (windowFiles files s L).all chk = true
    · have hvi : (scanStep chk files L st s).validIndices =
          st.validIndices ++ [s] := by
        simp only [scanStep, hwv, hv, if_true]
      rw [hvi, hv]
      simp
    · simp only [Bool.not_eq_true] at hv
      have hvi : (scanStep chk files L st s).validIndices = st.validIndices := by
        simp only [scanStep, hwv, hv, Bool.false_eq_true, if_false]
      rw [hvi, hv]
      simp

/-- The memoized scan computes exactly the pointwise-valid windows. -/
theorem datasetScan_validIndices (chk : FileId → Bool) (files : List FileId)
    (L : ℕ) :
    (datasetScan chk files L).validIndices =
      (List.range (totalPossibleWindows files.length L)).filter
        (fun s => (windowFiles files s L).all chk) := by
  have h := scan_fold_invariant chk files L
    (List.range (totalPossibleWindows files.length L)) ⟨[], [], []⟩
    (by intro f b hb; cases hb) (by constructor <;> simp [cacheLookup])
  simpa [datasetScan] using h.2.2

/-- Start offsets below the window count leave the whole window in bounds. -/
theorem range_window_bound {n L s : ℕ} (h : s < totalPossibleWindows n L) :
    s + L ≤ n := by
  unfold totalPossibleWindows at h
  omega

theorem windowFiles_all (chk : FileId → Bool) (files : List FileId) (s L : ℕ) :
    ((windowFiles files s L).all chk = true) ↔
      ∀ i, i < L → chk (files.getD (s + i) 0) = true := by
  simp [windowFiles, List.all_eq_true]

/-- Claim C2: with every file valid, the indexer yields all
`max(0, N-L+1)` contiguous offsets; with exactly one invalid file at
position `k`, it yields exactly the windows whose index range misses `k`. -/
theorem claim_C2 (chk : FileId → Bool) (files : List FileId) (L : ℕ) :
    ((∀ f ∈ files, chk f = true) →
      (datasetScan chk files L).validIndices =
        List.range (totalPossibleWindows files.length L)) ∧
    (∀ k, k < files.length →
      (∀ i, i < files.length → (chk (files.getD i 0) = false ↔ i = k)) →
      (datasetScan chk files L).validIndices =
        (List.range (totalPossibleWindows files.length L)).filter
          (fun s => decide ¬(s ≤ k ∧ k < s + L))) := by
  constructor
  · intro hall
    rw [datasetScan_validIndices]
    apply List.filter_eq_self.mpr
    intro s hs
    rw [List.mem_range] at hs
    have hsL := range_window_bound hs
    rw [windowFiles_all]
    intro i hi
    have hj : s + i < files.length := by omega
    rw [List.getD_eq_getElem files 0 hj]
    exact hall _ (List.getElem_mem hj)
  · intro k hk hone
    rw [datasetScan_validIndices]
    apply List.filter_congr
    intro s hs
    rw [List.mem_range] at hs
    have hsL := range_window_bound hs
    by_cases hin : s ≤ k ∧ k < s + L
    · have hfalse : (windowFiles files s L).all chk = false := by
        rcases Bool.eq_false_or_eq_true ((windowFiles files s L).all chk) with
          hb | hb
        · exfalso
          have hforall := (windowFiles_all chk files s L).mp hb
          have hi : k - s < L := by omega
          have hval := hforall (k - s) hi
          have hks : s + (k - s) = k := by omega
          rw [hks] at hval
          rw [(hone k hk).mpr rfl] at hval
          cases hval
        · exact hb
      rw [hfalse]
      simp [hin]
    · have htrue : (windowFiles files s L).all chk = true := by
        rw [windowFiles_all]
        intro i hi
        have hj : s + i < files.length := by omega
        have hne : s + i ≠ k := by omega
        cases hcv : chk (files.getD (s + i) 0) with
        | true => rfl
        | false => exact absurd ((hone (s + i) hj).mp hcv) hne
      rw [htrue]
      simp [hin]

/-- Witness for C2: a four-file list with window length 2, first with every
file valid, then with exactly the file at position 2 invalid (only the two
windows covering it are dropped). -/
theorem claim_C2_witness :
    (datasetScan (fun _ => true) [10, 11, 12, 13] 2).validIndices =
      List.range (totalPossibleWindows 4 2) ∧
    (datasetScan (fun f => !(f == 12)) [10, 11, 12, 13] 2).validIndices =
      (List.range (totalPossibleWindows 4 2)).filter
        (fun s => decide ¬(s ≤ 2 ∧ 2 < s + 2)) := by
  constructor
  · exact (claim_C2 (fun _ => true) [10, 11, 12, 13] 2).1 (by decide)
  · exact (claim_C2 (fun f => !(f == 12)) [10, 11, 12, 13] 2).2 2 (by decide)
      (by decide)

/-- Claim C7: during the scan every file identity is oracle-checked at most
once; looking up an already-recorded file returns the cache unchanged with
the recorded boolean; and a later check of any file never alters an existing
record. -/
theorem claim_C7 (chk : FileId → Bool) (files : List FileId) (L : ℕ) :
    (∀ f, ((datasetScan chk files L).calls).count f ≤ 1) ∧
    (∀ cache calls f b, cacheLookup cache f = some b →
      checkFile chk cache calls f = (cache, calls, b)) ∧
    (∀ cache calls g f b, cacheLookup cache f = some b →
      cacheLookup (checkFile chk cache calls g).1 f = some b) := by
  refine ⟨?_, ?_, ?_⟩
  · intro f
    have h := scan_fold_invariant chk files L
      (List.range (totalPossibleWindows files.length L)) ⟨[], [], []⟩
      (by intro g b hb; cases hb) (by constructor <;> simp [cacheLookup])
    have hnd : (datasetScan chk files L).calls.Nodup := h.2.1.1
    exact List.nodup_iff_count_le_one.mp hnd f
  · intro cache calls f b hb
    simp [checkFile, hb]
  · intro cache calls g f b hb
    exact checkFile_preserves chk cache calls g f b hb

/-- Witness for C7 at a concrete scan and a concrete one-entry cache. -/
theorem claim_C7_witness :
    (((datasetScan (fun _ => true) [10, 11, 12] 2).calls).count 10 ≤ 1) ∧
    checkFile (fun _ => false) [(5, true)] [5] 5 = ([(5, true)], [5], true) := by
  refine ⟨(claim_C7 (fun _ => true) [10, 11, 12] 2).1 10, ?_⟩
  exact (claim_C7 (fun _ => false) [] 0).2.1 [(5, true)] [5] 5 true (by decide)

/-- Claim C3 counterexample: constructing the dataset on a completely empty
file list completes normally (no exception is surfaced) and silently yields
the empty dataset with zero windows. -/
theorem claim_C3_counterexample :
    radarDatasetInit (fun _ => true) [] 6 6 =
      Except.ok
        { inputLength := 6, predLength := 6, seqLength := 12, files := [],
          fileValidity := [], validIndices := [], totalFiles := 0,
          invalidFiles := 0, totalPossible := 0, validWindows := 0,
          invalidWindows := 0 } := by
  rfl

/-- Claim C3 amended: on an empty source file list (and a positive window
length) dataset construction completes without surfacing any error, returning
a dataset with zero possible windows and an empty valid-index list. -/
theorem claim_C3_amended (chk : FileId → Bool) (il pl : ℕ) (h : 0 < il + pl) :
    ∃ d, radarDatasetInit chk [] il pl = Except.ok d ∧
      d.validIndices = [] ∧ d.totalPossible = 0 ∧ d.validWindows = 0 := by
  have h0 : totalPossibleWindows 0 (il + pl) = 0 := by
    unfold totalPossibleWindows
    omega
  refine ⟨_, rfl, ?_, ?_, ?_⟩ <;>
    simp [radarDatasetInit, datasetScan, h0]

/-- Witness for the amended C3 at the source defaults `input_length = 6`,
`pred_length = 6`. -/
theorem claim_C3_amended_witness :
    0 < 6 + 6 ∧
    ∃ d, radarDatasetInit (fun _ => true) [] 6 6 = Except.ok d ∧
      d.validIndices = [] ∧ d.totalPossible = 0 ∧ d.validWindows = 0 :=
  ⟨by decide, claim_C3_amended (fun _ => true) 6 6 (by decide)⟩

/-! ## Frame normalizer (`normalize_image`)

Scalars are modelled by `NpF`: NaN, the two infinities, or a finite value
(a rational).  `np.log1p` is an external numpy primitive and is a function
parameter of the embedding; every other step is embedded directly. -/

/-- A numpy floating-point value. -/
inductive NpF where
  | nan : NpF
  | pinf : NpF
  | ninf : NpF
  | fin : ℚ → NpF
  deriving DecidableEq, Repr

/-- `np.nan_to_num(x, nan=n, posinf=p, neginf=m)`, elementwise. -/
def NpF.nanToNum (x : NpF) (n p m : ℚ) : NpF :=
  match x with
  | nan => NpF.fin n
  | pinf => NpF.fin p
  | ninf => NpF.fin m
  | NpF.fin q => NpF.fin q

/-- `np.clip(x, lo, None)`, elementwise: clip from below only. -/
def NpF.clipLow (x : NpF) (lo : ℚ) : NpF :=
  match x with
  | nan => nan
  | pinf => pinf
  | ninf => NpF.fin lo
  | NpF.fin q => NpF.fin (max lo q)

/-- `np.clip(x, lo, hi)`, elementwise. -/
def NpF.clip (x : NpF) (lo hi : ℚ) : NpF :=
  match x with
  | nan => nan
  | pinf => NpF.fin hi
  | ninf => NpF.fin lo
  | NpF.fin q => NpF.fin (min hi (max lo q))

/-- Adding a finite constant (infinities and NaN propagate). -/
def NpF.addConst (x : NpF) (c : ℚ) : NpF :=
  match x with
  | NpF.fin q => NpF.fin (q + c)
  | y => y

/-- Subtracting a finite constant (infinities and NaN propagate). -/
def NpF.subConst (x : NpF) (c : ℚ) : NpF :=
  match x with
  | NpF.fin q => NpF.fin (q - c)
  | y => y

/-- Multiplication by a positive constant (used only with `10`), so the
infinities keep their signs. -/
def NpF.mulConst (x : NpF) (c : ℚ) : NpF :=
  match x with
  | NpF.fin q => NpF.fin (c * q)
  | y => y

/-- Division by a positive constant (used only with `70`), so the
infinities keep their signs. -/
def NpF.divConst (x : NpF) (c : ℚ) : NpF :=
  match x with
  | NpF.fin q => NpF.fin (q / c)
  | y => y

/-- `np.log1p` lifted to `NpF`; the finite-value function is the numpy
primitive, passed as a parameter.  (`log1p` of a value below `-1` would be
NaN in numpy; that branch is unreachable here because the argument has
already been clipped to be nonnegative.) -/
def NpF.log1pApply (log1p : ℚ → ℚ) (x : NpF) : NpF :=
  match x with
  | nan => nan
  | pinf => pinf
  | ninf => nan
  | NpF.fin q => NpF.fin (log1p q)

/-- One scalar of `normalize_image`, steps in the source's fixed order:
sanitize non-finite values to 0, clip negatives, `10 * log1p(x + 1e-8)`,
clip to `[0, 70]`, rescale `(x - 0) / (70 - 0)`, final non-finite cleanup
with NaN to 0, +inf to 1, -inf to 0. -/
def normalizeScalar (log1p : ℚ → ℚ) (x : NpF) : NpF :=
  (((((x.nanToNum 0 0 0).clipLow 0).addConst
      (1 / 100000000)).log1pApply log1p |>.mulConst 10).clip 0 70 |>.subConst
      0 |>.divConst 70).nanToNum 0 1 0

/-- `normalize_image` on a 2-D array. -/
def normalize_image (log1p : ℚ → ℚ) (img : List (List NpF)) :
    List (List NpF) :=
  img.map (fun row => row.map (normalizeScalar log1p))

theorem normalizeScalar_range (log1p : ℚ → ℚ) (x : NpF) :
    ∃ q : ℚ, normalizeScalar log1p x = NpF.fin q ∧ 0 ≤ q ∧ q ≤ 1 := by
  have hb : ∀ t : ℚ, 0 ≤ (min 70 (max 0 t) - 0) / 70 ∧
      (min 70 (max 0 t) - 0) / 70 ≤ 1 := by
    intro t
    rw [sub_zero]
    constructor
    · exact div_nonneg (le_min (by norm_num) (le_max_left 0 t)) (by norm_num)
    · rw [div_le_one (by norm_num)]
      exact min_le_left 70 (max 0 t)
  cases x <;> exact ⟨_, rfl, hb _⟩

/-- Claim C4: for every 2-D input (NaN and infinities included) and every
library `log1p`, `normalize_image` returns an array of the same shape whose
entries are all finite values in `[0, 1]`; being a total function it raises
nothing. -/
theorem claim_C4 (log1p : ℚ → ℚ) (img : List (List NpF)) :
    (normalize_image log1p img).map List.length = img.map List.length ∧
    ∀ row ∈ normalize_image log1p img, ∀ x ∈ row,
      ∃ q : ℚ, x = NpF.fin q ∧ 0 ≤ q ∧ q ≤ 1 := by
  constructor
  · simp [normalize_image, List.map_map, Function.comp]
  · intro row hrow x hx
    simp only [normalize_image, List.mem_map] at hrow
    obtain ⟨row0, _, rfl⟩ := hrow
    simp only [List.mem_map] at hx
    obtain ⟨x0, _, rfl⟩ := hx
    exact normalizeScalar_range log1p x0

/-! ## Tensors and convolutions

A `[B, C, H, W]` torch tensor of rationals is a total function on `Fin`
indices; pointwise `+`, `*`, `0` come from the `Pi` instances, matching the
elementwise torch operators. -/

/-- A `[B, C, H, W]` tensor. -/
abbrev Tensor (b c h w : ℕ) := Fin b → Fin c → Fin h → Fin w → ℚ

/-- Elementwise application (`torch.sigmoid`, `torch.tanh`, ...). -/
def tmap {b c h w : ℕ} (f : ℚ → ℚ) (t : Tensor b c h w) : Tensor b c h w :=
  fun bi ci i j => f (t bi ci i j)

/-- Reading a spatial position with zero padding outside the bounds. -/
def padGet {b c h w : ℕ} (t : Tensor b c h w) (bi : Fin b) (ci : Fin c)
    (i j : ℤ) : ℚ :=
  if hi : 0 ≤ i ∧ i < (h : ℤ) then
    if hj : 0 ≤ j ∧ j < (w : ℤ) then
      t bi ci ⟨i.toNat, by omega⟩ ⟨j.toNat, by omega⟩
    else 0
  else 0

/-- The learned parameters of an `nn.Conv2d(cin, cout, k)`. -/
structure Conv2d (cin cout k : ℕ) where
  weight : Fin cout → Fin cin → Fin k → Fin k → ℚ
  bias : Fin cout → ℚ

/-- Stride-1 cross-correlation with symmetric zero padding `pad` (the source
uses `padding = filter_size // 2` for the gate convolutions and the default
`0` for the 1-by-1 convolutions, both spatial-shape preserving there). -/
def Conv2d.apply {b h w : ℕ} {cin cout k : ℕ} (conv : Conv2d cin cout k)
    (pad : ℕ) (x : Tensor b cin h w) : Tensor b cout h w :=
  fun bi co i j =>
    conv.bias co + ∑ ci : Fin cin, ∑ u : Fin k, ∑ v : Fin k,
      conv.weight co ci u v *
        padGet x bi ci ((i.val : ℤ) + u.val - pad) ((j.val : ℤ) + v.val - pad)

/-- `torch.split(t, c, dim=1)`: the `m`-th chunk of channel width `c`. -/
def chunk {b h w : ℕ} (n c : ℕ) (t : Tensor b (n * c) h w) (m : Fin n) :
    Tensor b c h w :=
  fun bi ci i j =>
    t bi ⟨m.val * c + ci.val, by
      have h1 : m.val * c + ci.val < (m.val + 1) * c := by
        rw [Nat.succ_mul]
        omega
      exact lt_of_lt_of_le h1 (mul_le_mul_right' m.isLt c)⟩ i j

/-- `torch.cat([t1, t2], dim=1)`. -/
def concat2 {b h w c1 c2 : ℕ} (t1 : Tensor b c1 h w) (t2 : Tensor b c2 h w) :
    Tensor b (c1 + c2) h w :=
  fun bi ci i j =>
    if hc : ci.val < c1 then t1 bi ⟨ci.val, hc⟩ i j
    else t2 bi ⟨ci.val - c1, by have := ci.isLt; omega⟩ i j

/-- Channel-wise squared norm at one batch/spatial location. -/
def sumSq {b c h w : ℕ} (t : Tensor b c h w) (bi : Fin b) (i : Fin h)
    (j : Fin w) : ℚ :=
  ∑ ci : Fin c, t bi ci i j ^ 2

/-- `F.cosine_similarity(x, y, dim=1)` with its default `eps = 1e-8`: the
channel dot product over `max(norm(x) * norm(y), eps)`.  The square root
inside the norms is the library primitive, passed as the parameter `sqrt`. -/
def cosSim (sqrt : ℚ → ℚ) {b c h w : ℕ} (x y : Tensor b c h w) (bi : Fin b)
    (i : Fin h) (j : Fin w) : ℚ :=
  (∑ ci : Fin c, x bi ci i j * y bi ci i j) /
    max (sqrt (sumSq x bi i j) * sqrt (sumSq y bi i j)) (1 / 100000000)

/-- `torch.mean` of a `[B, H, W]` field (what remains of the similarity map
after `dim=1` has been consumed). -/
def fieldMean {b h w : ℕ} (f : Fin b → Fin h → Fin w → ℚ) : ℚ :=
  (∑ p : Fin b × Fin h × Fin w, f p.1 p.2.1 p.2.2) / ((b * h * w : ℕ) : ℚ)

/-! ## Dual-memory cell (`SpatiotemporalLSTMCell`) -/

/-- The learned parameters of `SpatiotemporalLSTMCell(input_dim = cin,
hidden_dim = hd, filter_size = k)`.  The fusion convolution consumes the
channel concatenation of the two memories (`hd + hd` channels, written
`hidden_dim * 2` in the source). -/
structure STCell (cin hd k : ℕ) where
  conv_x : Conv2d cin (7 * hd) k
  conv_h : Conv2d hd (7 * hd) k
  conv_c : Conv2d hd (3 * hd) 1
  conv_m : Conv2d hd (3 * hd) 1
  conv_fusion : Conv2d (hd + hd) hd 1
  conv_decouple_c : Conv2d hd hd 1
  conv_decouple_m : Conv2d hd hd 1

/-- The zig-zag folding of the upper layer's memory:
`m_prev + sigmoid(m_upper)` when `m_upper` is supplied. -/
def foldUpper (sigmoid : ℚ → ℚ) {b hd h w : ℕ} (m_prev : Tensor b hd h w) :
    Option (Tensor b hd h w) → Tensor b hd h w
  | none => m_prev
  | some m_upper => m_prev + tmap sigmoid m_upper

namespace STCell

variable {cin hd k b h w : ℕ}

/-- `combined = conv_x(x) + conv_h(h_prev)`; split into the seven gates
`i_c, i_m, f_c, f_m, g_c, g_m, o` (chunks 0-6). -/
def combined (cell : STCell cin hd k) (x : Tensor b cin h w)
    (h_prev : Tensor b hd h w) : Tensor b (7 * hd) h w :=
  cell.conv_x.apply (k / 2) x + cell.conv_h.apply (k / 2) h_prev

/-- `delta_c = sigmoid(i_c + i_c_c) * tanh(g_c)` (`i_c_c` is chunk 1 of
`conv_c(c_prev)`, whose chunks are `f_c_c, i_c_c, o_c`). -/
def deltaC (cell : STCell cin hd k) (sigmoid tanh : ℚ → ℚ)
    (x : Tensor b cin h w) (h_prev c_prev : Tensor b hd h w) :
    Tensor b hd h w :=
  tmap sigmoid (chunk 7 hd (cell.combined x h_prev) 0 +
      chunk 3 hd (cell.conv_c.apply 0 c_prev) 1) *
    tmap tanh (chunk 7 hd (cell.combined x h_prev) 4)

/-- `c_new = sigmoid(f_c + f_c_c) * c_prev + delta_c`. -/
def cNew (cell : STCell cin hd k) (sigmoid tanh : ℚ → ℚ)
    (x : Tensor b cin h w) (h_prev c_prev : Tensor b hd h w) :
    Tensor b hd h w :=
  tmap sigmoid (chunk 7 hd (cell.combined x h_prev) 2 +
      chunk 3 hd (cell.conv_c.apply 0 c_prev) 0) * c_prev +
    cell.deltaC sigmoid tanh x h_prev c_prev

/-- `delta_m = sigmoid(i_m + i_m_m) * tanh(g_m)` evaluated on the effective
(zig-zag-folded) memory `m_eff`. -/
def deltaM (cell : STCell cin hd k) (sigmoid tanh : ℚ → ℚ)
    (x : Tensor b cin h w) (h_prev m_eff : Tensor b hd h w) :
    Tensor b hd h w :=
  tmap sigmoid (chunk 7 hd (cell.combined x h_prev) 1 +
      chunk 3 hd (cell.conv_m.apply 0 m_eff) 1) *
    tmap tanh (chunk 7 hd (cell.combined x h_prev) 5)

/-- `m_new = sigmoid(f_m + f_m_m) * m_eff + delta_m`. -/
def mNew (cell : STCell cin hd k) (sigmoid tanh : ℚ → ℚ)
    (x : Tensor b cin h w) (h_prev m_eff : Tensor b hd h w) :
    Tensor b hd h w :=
  tmap sigmoid (chunk 7 hd (cell.combined x h_prev) 3 +
      chunk 3 hd (cell.conv_m.apply 0 m_eff) 0) * m_eff +
    cell.deltaM sigmoid tanh x h_prev m_eff

/-- `h_new = sigmoid(o) * tanh(conv_fusion(cat[c_new, m_new]))`. -/
def hNew (cell : STCell cin hd k) (sigmoid tanh : ℚ → ℚ)
    (x : Tensor b cin h w) (h_prev c_prev m_eff : Tensor b hd h w) :
    Tensor b hd h w :=
  tmap sigmoid (chunk 7 hd (cell.combined x h_prev) 6) *
    tmap tanh (cell.conv_fusion.apply 0
      (concat2 (cell.cNew sigmoid tanh x h_prev c_prev)
        (cell.mNew sigmoid tanh x h_prev m_eff)))

/-- `delta_c_decoupled = conv_decouple_c(delta_c)`. -/
def deltaCdec (cell : STCell cin hd k) (sigmoid tanh : ℚ → ℚ)
    (x : Tensor b cin h w) (h_prev c_prev : Tensor b hd h w) :
    Tensor b hd h w :=
  cell.conv_decouple_c.apply 0 (cell.deltaC sigmoid tanh x h_prev c_prev)

/-- `delta_m_decoupled = conv_decouple_m(delta_m)`. -/
def deltaMdec (cell : STCell cin hd k) (sigmoid tanh : ℚ → ℚ)
    (x : Tensor b cin h w) (h_prev m_eff : Tensor b hd h w) :
    Tensor b hd h w :=
  cell.conv_decouple_m.apply 0 (cell.deltaM sigmoid tanh x h_prev m_eff)

/-- `decouple_loss = mean(1 - cosine_similarity(delta_c_dec, delta_m_dec))`. -/
def decoupleLoss (cell : STCell cin hd k) (sigmoid tanh sqrt : ℚ → ℚ)
    (x : Tensor b cin h w) (h_prev c_prev m_eff : Tensor b hd h w) : ℚ :=
  fieldMean (fun bi i j =>
    1 - cosSim sqrt (cell.deltaCdec sigmoid tanh x h_prev c_prev)
      (cell.deltaMdec sigmoid tanh x h_prev m_eff) bi i j)

/-- `SpatiotemporalLSTMCell.forward`.  The bilinear-resize branch is the
identity here because `x` and `h_prev` share spatial dimensions by type;
`m_upper`, when given, is folded into the effective memory first. -/
def forward (cell : STCell cin hd k) (sigmoid tanh sqrt : ℚ → ℚ)
    (x : Tensor b cin h w) (h_prev c_prev m_prev : Tensor b hd h w)
    (m_upper : Option (Tensor b hd h w)) :
    Tensor b hd h w × Tensor b hd h w × Tensor b hd h w × ℚ :=
  (cell.hNew sigmoid tanh x h_prev c_prev (foldUpper sigmoid m_prev m_upper),
   cell.cNew sigmoid tanh x h_prev c_prev,
   cell.mNew sigmoid tanh x h_prev (foldUpper sigmoid m_prev m_upper),
   cell.decoupleLoss sigmoid tanh sqrt x h_prev c_prev
     (foldUpper sigmoid m_prev m_upper))

end STCell

/-- The all-zero convolution parameters. -/
def zeroConv (cin cout k : ℕ) : Conv2d cin cout k :=
  ⟨fun _ _ _ _ => 0, fun _ => 0⟩

/-- A cell with every learned weight and every bias equal to zero. -/
def zeroCell (cin hd k : ℕ) : STCell cin hd k :=
  ⟨zeroConv _ _ _, zeroConv _ _ _, zeroConv _ _ _, zeroConv _ _ _,
   zeroConv _ _ _, zeroConv _ _ _, zeroConv _ _ _⟩

theorem zeroConv_apply {b h w cin cout k : ℕ} (pad : ℕ)
    (x : Tensor b cin h w) : (zeroConv cin cout k).apply pad x = 0 := by
  funext bi co i j
  simp [zeroConv, Conv2d.apply]

/-- Claim C5: with all learned weights and biases zero and zero-valued
`h_prev, c_prev, m_prev` (and no `m_upper`), one cell step returns `c_new`
and `m_new` exactly zero, for any input `x`.  (`tanh 0 = 0` is the single
fact needed of the library activation.) -/
theorem claim_C5 (b cin hd k h w : ℕ) (sigmoid tanh sqrt : ℚ → ℚ)
    (x : Tensor b cin h w) (htanh : tanh 0 = 0) :
    ((zeroCell cin hd k).forward sigmoid tanh sqrt x 0 0 0 none).2.1 =
      (0 : Tensor b hd h w) ∧
    ((zeroCell cin hd k).forward sigmoid tanh sqrt x 0 0 0 none).2.2.1 =
      (0 : Tensor b hd h w) := by
  have hcomb : (zeroCell cin hd k).combined x (0 : Tensor b hd h w) = 0 := by
    simp [STCell.combined, zeroCell, zeroConv_apply]
  have hcc : Conv2d.apply (zeroCell cin hd k).conv_c 0 (0 : Tensor b hd h w)
      = 0 := by
    simp [zeroCell, zeroConv_apply]
  have hcm : Conv2d.apply (zeroCell cin hd k).conv_m 0 (0 : Tensor b hd h w)
      = 0 := by
    simp [zeroCell, zeroConv_apply]
  have hfold : foldUpper sigmoid (0 : Tensor b hd h w) none = 0 := rfl
  constructor
  · show (zeroCell cin hd k).cNew sigmoid tanh x 0 0 = 0
    unfold STCell.cNew STCell.deltaC
    rw [hcomb, hcc]
    funext bi ci i j
    simp [tmap, chunk, htanh]
  · show (zeroCell cin hd k).mNew sigmoid tanh x 0
      (foldUpper sigmoid 0 none) = 0
    rw [hfold]
    unfold STCell.mNew STCell.deltaM
    rw [hcomb, hcm]
    funext bi ci i j
    simp [tmap, chunk, htanh]

/-- Witness for C5 at a concrete one-channel, one-pixel instance with the
identity standing in for the activations. -/
theorem claim_C5_witness :
    (fun q : ℚ => q) 0 = 0 ∧
    (((zeroCell 1 1 1).forward (fun q => q) (fun q => q) (fun q => q)
        (fun _ _ _ _ => (3 : ℚ)) 0 0 0 none).2.1 = (0 : Tensor 1 1 1 1) ∧
     ((zeroCell 1 1 1).forward (fun q => q) (fun q => q) (fun q => q)
        (fun _ _ _ _ => (3 : ℚ)) 0 0 0 none).2.2.1 = (0 : Tensor 1 1 1 1)) :=
  ⟨rfl, claim_C5 1 1 1 1 1 1 (fun q => q) (fun q => q) (fun q => q)
    (fun _ _ _ _ => (3 : ℚ)) rfl⟩

/-- The library primitive `sqrt` behaves as a genuine square root at the
particular value `q`. -/
abbrev SqrtOK (sqrt : ℚ → ℚ) (q : ℚ) : Prop :=
  0 ≤ sqrt q ∧ sqrt q * sqrt q = q

/-- Cauchy-Schwarz with the clamped denominator: each per-location cosine
similarity lies in `[-1, 1]`. -/
theorem cosSim_abs_le_one (sqrt : ℚ → ℚ) {b c h w : ℕ}
    (x y : Tensor b c h w) (bi : Fin b) (i : Fin h) (j : Fin w)
    (hx : SqrtOK sqrt (sumSq x bi i j)) (hy : SqrtOK sqrt (sumSq y bi i j)) :
    |cosSim sqrt x y bi i j| ≤ 1 := by
  set num := ∑ ci : Fin c, x bi ci i j * y bi ci i j with hnum
  set den := max (sqrt (sumSq x bi i j) * sqrt (sumSq y bi i j))
    ((1 : ℚ) / 100000000) with hden
  have hdpos : (0 : ℚ) < den :=
    lt_of_lt_of_le (by norm_num) (le_max_right _ _)
  have hcs : num ^ 2 ≤ sumSq x bi i j * sumSq y bi i j := by
    have hcs0 := Finset.sum_mul_sq_le_sq_mul_sq Finset.univ
      (fun ci => x bi ci i j) (fun ci => y bi ci i j)
    simpa [sumSq, hnum] using hcs0
  have hprod : sumSq x bi i j * sumSq y bi i j =
      (sqrt (sumSq x bi i j) * sqrt (sumSq y bi i j)) ^ 2 := by
    rw [mul_pow, sq, sq, hx.2, hy.2]
  have habs : |num| ≤ sqrt (sumSq x bi i j) * sqrt (sumSq y bi i j) :=
    abs_le_of_sq_le_sq (by rw [← hprod]; exact hcs) (mul_nonneg hx.1 hy.1)
  have hval : cosSim sqrt x y bi i j = num / den := rfl
  rw [hval, abs_div, abs_of_pos hdpos, div_le_one hdpos]
  exact le_trans habs (le_max_left _ _)

/-- Claim C6: whenever `sqrt` is exact on the squared norms that actually
occur, the decouple loss returned by a cell invocation on a nonempty tensor
is in `[0, 2]` (in particular finite and non-negative). -/
theorem claim_C6 (b cin hd k h w : ℕ) (sigmoid tanh sqrt : ℚ → ℚ)
    (cell : STCell cin hd k) (x : Tensor b cin h w)
    (h_prev c_prev m_prev : Tensor b hd h w)
    (m_upper : Option (Tensor b hd h w))
    (hb : 0 < b) (hh : 0 < h) (hw : 0 < w)
    (hsq : ∀ (bi : Fin b) (i : Fin h) (j : Fin w),
      SqrtOK sqrt
        (sumSq (cell.deltaCdec sigmoid tanh x h_prev c_prev) bi i j) ∧
      SqrtOK sqrt
        (sumSq (cell.deltaMdec sigmoid tanh x h_prev
          (foldUpper sigmoid m_prev m_upper)) bi i j)) :
    0 ≤ (cell.forward sigmoid tanh sqrt x h_prev c_prev m_prev m_upper).2.2.2 ∧
    (cell.forward sigmoid tanh sqrt x h_prev c_prev m_prev m_upper).2.2.2
      ≤ 2 := by
  have hbhw : 0 < b * h * w := Nat.mul_pos (Nat.mul_pos hb hh) hw
  have hcard : (0 : ℚ) < ((b * h * w : ℕ) : ℚ) := by exact_mod_cast hbhw
  set dc := cell.deltaCdec sigmoid tanh x h_prev c_prev with hdc
  set dm := cell.deltaMdec sigmoid tanh x h_prev
    (foldUpper sigmoid m_prev m_upper) with hdm
  have hterm : ∀ p : Fin b × Fin h × Fin w,
      0 ≤ 1 - cosSim sqrt dc dm p.1 p.2.1 p.2.2 ∧
      1 - cosSim sqrt dc dm p.1 p.2.1 p.2.2 ≤ 2 := by
    intro p
    have hcos := cosSim_abs_le_one sqrt dc dm p.1 p.2.1 p.2.2
      (hsq p.1 p.2.1 p.2.2).1 (hsq p.1 p.2.1 p.2.2).2
    have h1 := abs_le.mp hcos
    constructor <;> linarith [h1.1, h1.2]
  have hloss :
      (cell.forward sigmoid tanh sqrt x h_prev c_prev m_prev m_upper).2.2.2 =
        (∑ p : Fin b × Fin h × Fin w,
          (1 - cosSim sqrt dc dm p.1 p.2.1 p.2.2)) / ((b * h * w : ℕ) : ℚ) :=
    rfl
  rw [hloss]
  constructor
  · exact div_nonneg (Finset.sum_nonneg (fun p _ => (hterm p).1))
      (le_of_lt hcard)
  · rw [div_le_iff₀ hcard]
    have hsum : ∑ p : Fin b × Fin h × Fin w,
        (1 - cosSim sqrt dc dm p.1 p.2.1 p.2.2) ≤
        ∑ _p : Fin b × Fin h × Fin w, (2 : ℚ) :=
      Finset.sum_le_sum (fun p _ => (hterm p).2)
    have hconst : ∑ _p : Fin b × Fin h × Fin w, (2 : ℚ) =
        2 * ((b * h * w : ℕ) : ℚ) := by
      rw [Finset.sum_const, Finset.card_univ, nsmul_eq_mul,
        Fintype.card_prod, Fintype.card_prod, Fintype.card_fin,
        Fintype.card_fin, Fintype.card_fin]
      push_cast
      ring
    linarith

theorem zeroCell_deltaCdec {b cin hd k h w : ℕ} (sigmoid tanh : ℚ → ℚ)
    (x : Tensor b cin h w) (h_prev c_prev : Tensor b hd h w) :
    (zeroCell cin hd k).deltaCdec sigmoid tanh x h_prev c_prev = 0 :=
  zeroConv_apply 0 _

theorem zeroCell_deltaMdec {b cin hd k h w : ℕ} (sigmoid tanh : ℚ → ℚ)
    (x : Tensor b cin h w) (h_prev m_eff : Tensor b hd h w) :
    (zeroCell cin hd k).deltaMdec sigmoid tanh x h_prev m_eff = 0 :=
  zeroConv_apply 0 _

/-- Witness for C6: the all-zero cell on a one-channel, one-pixel input,
with the zero function as `sqrt` (exact there since every occurring squared
norm is zero). -/
theorem claim_C6_witness :
    0 ≤ ((zeroCell 1 1 1).forward (fun _ => 0) (fun _ => 0) (fun _ => 0)
      ((fun _ _ _ _ => (0 : ℚ)) : Tensor 1 1 1 1) (0 : Tensor 1 1 1 1)
      0 0 none).2.2.2 ∧
    ((zeroCell 1 1 1).forward (fun _ => 0) (fun _ => 0) (fun _ => 0)
      ((fun _ _ _ _ => (0 : ℚ)) : Tensor 1 1 1 1) (0 : Tensor 1 1 1 1)
      0 0 none).2.2.2 ≤ 2 :=
  claim_C6 1 1 1 1 1 1 (fun _ => 0) (fun _ => 0) (fun _ => 0)
    (zeroCell 1 1 1) ((fun _ _ _ _ => (0 : ℚ)) : Tensor 1 1 1 1)
    (0 : Tensor 1 1 1 1) 0 0 none
    (by decide) (by decide) (by decide)
    (by
      intro bi i j
      rw [zeroCell_deltaCdec, zeroCell_deltaMdec]
      constructor <;> exact ⟨le_refl 0, by simp [sumSq]⟩)

/-! ## Zig-zag layer scheduler (`PredRNN_Block`) -/

/-- The per-layer state lists `h_t, c_t, m_t` (Python lists indexed by
layer; only indices below `num_layers` are meaningful). -/
structure BlockState (b hd h w : ℕ) where
  h_t : ℕ → Tensor b hd h w
  c_t : ℕ → Tensor b hd h w
  m_t : ℕ → Tensor b hd h w

/-- Accumulator of a pass: the states, the running decouple loss, and an
instrumentation trace recording, per cell invocation, the layer index
together with the input tensor actually fed to that cell. -/
structure PassAcc (b hd h w : ℕ) where
  st : BlockState b hd h w
  loss : ℚ
  trace : List (ℕ × Tensor b hd h w)

/-- One iteration of the bottom-up loop body at layer `l`: layer 0 is fed
the raw timestep input `xt`, a higher layer is fed `h_t[l-1]`; `m_upper` is
`m_t[l+1]` for every layer below the top one; the layer's `h/c/m` entries
are overwritten with the cell's results and the decouple loss accumulates. -/
def buStep {b hd h w k : ℕ} (cells : ℕ → STCell hd hd k)
    (sigmoid tanh sqrt : ℚ → ℚ) (L : ℕ) (xt : Tensor b hd h w)
    (acc : PassAcc b hd h w) (l : ℕ) : PassAcc b hd h w :=
  let inp := if l = 0 then xt else acc.st.h_t (l - 1)
  let m_upper : Option (Tensor b hd h w) :=
    if l < L - 1 then some (acc.st.m_t (l + 1)) else none
  let r := (cells l).forward sigmoid tanh sqrt inp (acc.st.h_t l) (acc.st.c_t l)
    (acc.st.m_t l) m_upper
  { st :=
      { h_t := Function.update acc.st.h_t l r.1
        c_t := Function.update acc.st.c_t l r.2.1
        m_t := Function.update acc.st.m_t l r.2.2.1 }
    loss := acc.loss + r.2.2.2
    trace := acc.trace ++ [(l, inp)] }

/-- Phase 1 of a timestep: `for l in reversed(range(self.num_layers))`. -/
def bottomUpPass {b hd h w k : ℕ} (cells : ℕ → STCell hd hd k)
    (sigmoid tanh sqrt : ℚ → ℚ) (L : ℕ) (xt : Tensor b hd h w)
    (acc : PassAcc b hd h w) : PassAcc b hd h w :=
  ((List.range L).reverse).foldl (buStep cells sigmoid tanh sqrt L xt) acc

/-- One iteration of the top-down loop body at layer `l ≥ 1`: the input is
`h_t[l-1]` (already updated in phase 1) and the `m_upper` argument receives
the memory of the layer below, `m_t[l-1]` (the source's deliberate naming
inversion). -/
def tdStep {b hd h w k : ℕ} (cells : ℕ → STCell hd hd k)
    (sigmoid tanh sqrt : ℚ → ℚ) (acc : PassAcc b hd h w) (l : ℕ) :
    PassAcc b hd h w :=
  let inp := acc.st.h_t (l - 1)
  let r := (cells l).forward sigmoid tanh sqrt inp (acc.st.h_t l) (acc.st.c_t l)
    (acc.st.m_t l) (some (acc.st.m_t (l - 1)))
  { st :=
      { h_t := Function.update acc.st.h_t l r.1
        c_t := Function.update acc.st.c_t l r.2.1
        m_t := Function.update acc.st.m_t l r.2.2.1 }
    loss := acc.loss + r.2.2.2
    trace := acc.trace ++ [(l, inp)] }

/-- Phase 2 of a timestep: `for l in range(1, self.num_layers)`. -/
def topDownPass {b hd h w k : ℕ} (cells : ℕ → STCell hd hd k)
    (sigmoid tanh sqrt : ℚ → ℚ) (L : ℕ) (acc : PassAcc b hd h w) :
    PassAcc b hd h w :=
  (List.range' 1 (L - 1)).foldl (tdStep cells sigmoid tanh sqrt) acc

/-- One full timestep of `PredRNN_Block.forward`: bottom-up, then top-down. -/
def blockTimestep {b hd h w k : ℕ} (cells : ℕ → STCell hd hd k)
    (sigmoid tanh sqrt : ℚ → ℚ) (L : ℕ) (xt : Tensor b hd h w)
    (acc : PassAcc b hd h w) : PassAcc b hd h w :=
  topDownPass cells sigmoid tanh sqrt L
    (bottomUpPass cells sigmoid tanh sqrt L xt acc)

/-- `PredRNN_Block.forward`: per timestep run both passes and record the top
layer's `h_t[-1]` as output; finally divide the accumulated loss by
`seq_len * num_layers`. -/
def blockForward {b hd h w k : ℕ} (cells : ℕ → STCell hd hd k)
    (sigmoid tanh sqrt : ℚ → ℚ) (L : ℕ)
    (inputs : List (Tensor b hd h w)) (st0 : BlockState b hd h w) :
    List (Tensor b hd h w) × BlockState b hd h w × ℚ :=
  (((inputs.foldl
      (fun (p : PassAcc b hd h w × List (Tensor b hd h w)) xt =>
        ((blockTimestep cells sigmoid tanh sqrt L xt p.1),
          p.2 ++ [(blockTimestep cells sigmoid tanh sqrt L xt p.1).st.h_t
            (L - 1)]))
      (⟨st0, 0, []⟩, [])).2),
   (inputs.foldl
      (fun (p : PassAcc b hd h w × List (Tensor b hd h w)) xt =>
        ((blockTimestep cells sigmoid tanh sqrt L xt p.1),
          p.2 ++ [(blockTimestep cells sigmoid tanh sqrt L xt p.1).st.h_t
            (L - 1)]))
      (⟨st0, 0, []⟩, [])).1.st,
   (inputs.foldl
      (fun (p : PassAcc b hd h w × List (Tensor b hd h w)) xt =>
        ((blockTimestep cells sigmoid tanh sqrt L xt p.1),
          p.2 ++ [(blockTimestep cells sigmoid tanh sqrt L xt p.1).st.h_t
            (L - 1)]))
      (⟨st0, 0, []⟩, [])).1.loss / ((inputs.length * L : ℕ) : ℚ))

/-! ### Bottom-up pass: what each layer is actually fed -/

theorem bu_fold_trace_fst {b hd h w k : ℕ} (cells : ℕ → STCell hd hd k)
    (sigmoid tanh sqrt : ℚ → ℚ) (L : ℕ) (xt : Tensor b hd h w) :
    ∀ (ls : List ℕ) (acc : PassAcc b hd h w),
      ((ls.foldl (buStep cells sigmoid tanh sqrt L xt) acc).trace).map
          Prod.fst =
        acc.trace.map Prod.fst ++ ls := by
  intro ls
  induction ls with
  | nil => intro acc; simp
  | cons l ls ih =>
    intro acc
    rw [List.foldl_cons, ih]
    simp [buStep]

theorem bu_fold_inputs {b hd h w k : ℕ} (cells : ℕ → STCell hd hd k)
    (sigmoid tanh sqrt : ℚ → ℚ) (L : ℕ) (xt : Tensor b hd h w)
    (st0 : BlockState b hd h w) :
    ∀ (ls : List ℕ), List.Sorted (fun a b : ℕ => b < a) ls →
    ∀ acc : PassAcc b hd h w,
      (∀ n, (∃ l2 ∈ ls, n ≤ l2) → acc.st.h_t n = st0.h_t n) →
      ∀ p ∈ (ls.foldl (buStep cells sigmoid tanh sqrt L xt) acc).trace,
        p ∈ acc.trace ∨
          ((p.1 = 0 → p.2 = xt) ∧ (0 < p.1 → p.2 = st0.h_t (p.1 - 1))) := by
  intro ls
  induction ls with
  | nil => intro _ acc _ p hp; exact Or.inl hp
  | cons l ls ih =>
    intro hsort acc hagree p hp
    rw [List.foldl_cons] at hp
    have hlt : ∀ l2 ∈ ls, l2 < l :=
      fun l2 h2 => List.rel_of_sorted_cons hsort l2 h2
    have hagree2 : ∀ n, (∃ l2 ∈ ls, n ≤ l2) →
        (buStep cells sigmoid tanh sqrt L xt acc l).st.h_t n = st0.h_t n := by
      rintro n ⟨l2, hl2, hn⟩
      have hne : n ≠ l := by have := hlt l2 hl2; omega
      show Function.update acc.st.h_t l _ n = st0.h_t n
      rw [Function.update_noteq hne]
      exact hagree n ⟨l2, List.mem_cons_of_mem _ hl2, hn⟩
    rcases ih hsort.of_cons (buStep cells sigmoid tanh sqrt L xt acc l)
        hagree2 p hp with hin | hgood
    · have hin2 : p ∈ acc.trace ++
          [(l, if l = 0 then xt else acc.st.h_t (l - 1))] := hin
      rcases List.mem_append.mp hin2 with h1 | h2
      · exact Or.inl h1
      · have hp2 : p = (l, if l = 0 then xt else acc.st.h_t (l - 1)) :=
          List.mem_singleton.mp h2
        subst hp2
        right
        constructor
        · intro h0
          have hl0 : l = 0 := h0
          simp [hl0]
        · intro hpos
          have hne0 : ¬ l = 0 := by
            have : 0 < l := hpos
            omega
          simp only [hne0, if_false]
          exact hagree (l - 1) ⟨l, List.mem_cons_self _ _, by omega⟩
    · exact Or.inr hgood

theorem range_reverse_sorted (L : ℕ) :
    List.Sorted (fun a b : ℕ => b < a) (List.range L).reverse :=
  List.pairwise_reverse.mpr (List.pairwise_lt_range L)

/-- Claim C1, amended: the bottom-up pass visits layers from the highest
index down to 0; layer 0 is fed the raw timestep input; every layer `l > 0`
is fed layer `l-1`'s hidden state as it stood *before* the pass (the value
left over from the previous timestep), since layer `l-1` is only updated
after layer `l` in this pass. -/
theorem claim_C1_amended (b hd k h w L : ℕ) (cells : ℕ → STCell hd hd k)
    (sigmoid tanh sqrt : ℚ → ℚ) (xt : Tensor b hd h w)
    (st0 : BlockState b hd h w) (loss0 : ℚ) :
    (((bottomUpPass cells sigmoid tanh sqrt L xt ⟨st0, loss0, []⟩).trace).map
        Prod.fst = (List.range L).reverse) ∧
    ∀ p ∈ (bottomUpPass cells sigmoid tanh sqrt L xt ⟨st0, loss0, []⟩).trace,
      (p.1 = 0 → p.2 = xt) ∧ (0 < p.1 → p.2 = st0.h_t (p.1 - 1)) := by
  constructor
  · have := bu_fold_trace_fst cells sigmoid tanh sqrt L xt
      (List.range L).reverse ⟨st0, loss0, []⟩
    simpa [bottomUpPass] using this
  · intro p hp
    have := bu_fold_inputs cells sigmoid tanh sqrt L xt st0
      (List.range L).reverse (range_reverse_sorted L) ⟨st0, loss0, []⟩
      (fun _ _ => rfl) p hp
    rcases this with hin | hgood
    · cases hin
    · exact hgood

/-- With the constant-one functions in place of the activations, `h_new`
is the all-ones tensor regardless of weights and inputs. -/
theorem hNew_const_one {b cin hd k h w : ℕ} (cell : STCell cin hd k)
    (x : Tensor b cin h w) (h_prev c_prev m_eff : Tensor b hd h w) :
    cell.hNew (fun _ => 1) (fun _ => 1) x h_prev c_prev m_eff =
      (fun _ _ _ _ => (1 : ℚ)) := by
  funext bi ci i j
  simp [STCell.hNew, tmap, Pi.mul_apply]

/-- Claim C1, counterexample to the original statement: in a concrete
two-layer instance, the input fed to layer 1 in the bottom-up pass is *not*
layer 0's just-updated hidden state from that same pass. -/
theorem claim_C1_counterexample :
    ¬ (∀ p ∈ (bottomUpPass (fun _ => zeroCell 1 1 1) (fun _ => 1)
        (fun _ => 1) (fun _ => 0) 2 (0 : Tensor 1 1 1 1)
        ⟨⟨fun _ => 0, fun _ => 0, fun _ => 0⟩, 0, []⟩).trace,
      0 < p.1 →
        p.2 = (bottomUpPass (fun _ => zeroCell 1 1 1) (fun _ => 1)
          (fun _ => 1) (fun _ => 0) 2 (0 : Tensor 1 1 1 1)
          ⟨⟨fun _ => 0, fun _ => 0, fun _ => 0⟩, 0, []⟩).st.h_t (p.1 - 1)) := by
  intro hcl
  have htrace : (bottomUpPass (fun _ => zeroCell 1 1 1) (fun _ => 1)
      (fun _ => 1) (fun _ => 0) 2 (0 : Tensor 1 1 1 1)
      ⟨⟨fun _ => 0, fun _ => 0, fun _ => 0⟩, 0, []⟩).trace =
      [((1 : ℕ), (0 : Tensor 1 1 1 1)), ((0 : ℕ), (0 : Tensor 1 1 1 1))] :=
    rfl
  have htr : ((1 : ℕ), (0 : Tensor 1 1 1 1)) ∈
      (bottomUpPass (fun _ => zeroCell 1 1 1) (fun _ => 1) (fun _ => 1)
        (fun _ => 0) 2 (0 : Tensor 1 1 1 1)
        ⟨⟨fun _ => 0, fun _ => 0, fun _ => 0⟩, 0, []⟩).trace := by
    rw [htrace]
    exact List.mem_cons_self _ _
  have heq := hcl ((1 : ℕ), (0 : Tensor 1 1 1 1)) htr (by norm_num)
  have hl2 : (List.range 2).reverse = [1, 0] := rfl
  have hh : (bottomUpPass (fun _ => zeroCell 1 1 1) (fun _ => 1) (fun _ => 1)
      (fun _ => 0) 2 (0 : Tensor 1 1 1 1)
      ⟨⟨fun _ => 0, fun _ => 0, fun _ => 0⟩, 0, []⟩).st.h_t 0 =
      (fun _ _ _ _ => (1 : ℚ)) := by
    simp only [bottomUpPass, hl2, List.foldl_cons, List.foldl_nil, buStep]
    rw [Function.update_same]
    exact hNew_const_one _ _ _ _ _
  have h4 := congrFun (congrFun (congrFun (congrFun (heq.trans hh) 0) 0) 0) 0
  simp at h4

/-! ## Encode-predict-decode driver (`RainPredRNN.forward`)

The driver's control flow is embedded over abstract component types: the
encoder, the one-timestep rnn step (the scheduler applied to a
single-timestep window) and the decoder are function parameters, matching
the source where they are module attributes. -/

/-- The loop-carried state of `RainPredRNN.forward`: the recurrent states,
the predictions list, the running decouple loss, the Python variable `skip`
(last assigned skip connection), and an instrumentation trace `fed` of the
frames re-encoded in the autoregressive branch. -/
structure DrvAcc (Frame Feat Skip RState : Type) where
  rstate : RState
  preds : List Frame
  loss : ℚ
  skipVar : Skip
  fed : List Frame

/-- `predictions[-1] if predictions else input_sequence[:, -1]`: the frame
to re-encode in the autoregressive branch. -/
def prevPred {Frame : Type} [Inhabited Frame] (preds inputs : List Frame) :
    Frame :=
  match preds.getLast? with
  | some p => p
  | none => inputs.getLastD default

/-- One iteration `t` of the driver loop.  For `t < seqLen` the t-th
precomputed encoding is fed and nothing is decoded.  For `t ≥ seqLen`,
under teacher forcing in training mode the ground-truth encoding at
`t - seqLen` is fed (and the stale `skip` variable is used to decode);
otherwise the previous prediction — or, if none exists yet, the raw last
input frame — is re-encoded, fed, and decoded with its fresh skip. -/
def driverStep {Frame Feat Skip RState : Type} [Inhabited Frame]
    [Inhabited Feat] (encoder : Frame → Feat × Skip)
    (rnnStep : Feat → RState → Feat × RState × ℚ)
    (decode : Feat → Skip → Frame) (training teacherForcing : Bool)
    (inputs : List Frame) (encOuts : List Feat) (seqLen : ℕ)
    (acc : DrvAcc Frame Feat Skip RState) (t : ℕ) :
    DrvAcc Frame Feat Skip RState :=
  if t < seqLen then
    let r := rnnStep (encOuts.getD t default) acc.rstate
    { acc with rstate := r.2.1, loss := acc.loss + r.2.2 }
  else
    if teacherForcing && training then
      let r := rnnStep (encOuts.getD (t - seqLen) default) acc.rstate
      { acc with
        rstate := r.2.1
        preds := acc.preds ++ [decode r.1 acc.skipVar]
        loss := acc.loss + r.2.2 }
    else
      let es := encoder (prevPred acc.preds inputs)
      let r := rnnStep es.1 acc.rstate
      { rstate := r.2.1
        preds := acc.preds ++ [decode r.1 es.2]
        loss := acc.loss + r.2.2
        skipVar := es.2
        fed := acc.fed ++ [prevPred acc.preds inputs] }

/-- The driver loop of `RainPredRNN.forward`: all inputs are pre-encoded,
the `skip` variable starts as the last input's skip from the encoding loop,
and `t` runs over `range(seq_len + pred_length)`. -/
def rainDrive {Frame Feat Skip RState : Type} [Inhabited Frame]
    [Inhabited Feat] [Inhabited Skip] (encoder : Frame → Feat × Skip)
    (rnnStep : Feat → RState → Feat × RState × ℚ)
    (decode : Feat → Skip → Frame) (training teacherForcing : Bool)
    (initState : RState) (inputs : List Frame) (predLength : ℕ) :
    DrvAcc Frame Feat Skip RState :=
  (List.range (inputs.length + predLength)).foldl
    (driverStep encoder rnnStep decode training teacherForcing inputs
      (inputs.map (fun f => (encoder f).1)) inputs.length)
    { rstate := initState
      preds := []
      loss := 0
      skipVar := (inputs.map (fun f => (encoder f).2)).getLastD default
      fed := [] }

/-- `RainPredRNN.forward`: the stacked predictions with the total decouple
loss. -/
def rainForward {Frame Feat Skip RState : Type} [Inhabited Frame]
    [Inhabited Feat] [Inhabited Skip] (encoder : Frame → Feat × Skip)
    (rnnStep : Feat → RState → Feat × RState × ℚ)
    (decode : Feat → Skip → Frame) (training teacherForcing : Bool)
    (initState : RState) (inputs : List Frame) (predLength : ℕ) :
    List Frame × ℚ :=
  ((rainDrive encoder rnnStep decode training teacherForcing initState inputs
      predLength).preds,
   (rainDrive encoder rnnStep decode training teacherForcing initState inputs
      predLength).loss)

/-- Claim C8: the driver (and with it the scheduler it wraps) is a pure
function of its components, flags, initial state and inputs — two runs on
identical arguments return identical predictions and loss. -/
theorem claim_C8 {Frame Feat Skip RState : Type} [Inhabited Frame]
    [Inhabited Feat] [Inhabited Skip]
    (e1 e2 : Frame → Feat × Skip)
    (r1 r2 : Feat → RState → Feat × RState × ℚ)
    (d1 d2 : Feat → Skip → Frame) (tr1 tr2 tf1 tf2 : Bool) (s1 s2 : RState)
    (in1 in2 : List Frame) (p1 p2 : ℕ)
    (he : e1 = e2) (hr : r1 = r2) (hd : d1 = d2) (htr : tr1 = tr2)
    (htf : tf1 = tf2) (hs : s1 = s2) (hin : in1 = in2) (hp : p1 = p2) :
    rainForward e1 r1 d1 tr1 tf1 s1 in1 p1 =
      rainForward e2 r2 d2 tr2 tf2 s2 in2 p2 := by
  subst he hr hd htr htf hs hin hp
  rfl

/-- Witness for C8 at small concrete components over `ℚ`. -/
theorem claim_C8_witness :
    (fun q : ℚ => (q, q)) = (fun q : ℚ => (q, q)) ∧
    rainForward (fun q : ℚ => (q, q)) (fun x (s : ℚ) => (x, s, 0))
        (fun x s => x + s) false false 0 [1, 2] 2 =
      rainForward (fun q : ℚ => (q, q)) (fun x (s : ℚ) => (x, s, 0))
        (fun x s => x + s) false false 0 [1, 2] 2 :=
  ⟨rfl, claim_C8 _ _ _ _ _ _ false false false false 0 0 [1, 2] [1, 2] 2 2
    rfl rfl rfl rfl rfl rfl rfl rfl⟩

theorem driverStep_warm {Frame Feat Skip RState : Type} [Inhabited Frame]
    [Inhabited Feat] (encoder : Frame → Feat × Skip)
    (rnnStep : Feat → RState → Feat × RState × ℚ)
    (decode : Feat → Skip → Frame) (training tf : Bool)
    (inputs : List Frame) (encOuts : List Feat) (seqLen : ℕ)
    (acc : DrvAcc Frame Feat Skip RState) (t : ℕ) (ht : t < seqLen) :
    (driverStep encoder rnnStep decode training tf inputs encOuts seqLen acc
        t).preds = acc.preds ∧
    (driverStep encoder rnnStep decode training tf inputs encOuts seqLen acc
        t).fed = acc.fed := by
  constructor <;> simp [driverStep, ht]

theorem driver_warm {Frame Feat Skip RState : Type} [Inhabited Frame]
    [Inhabited Feat] (encoder : Frame → Feat × Skip)
    (rnnStep : Feat → RState → Feat × RState × ℚ)
    (decode : Feat → Skip → Frame) (training tf : Bool)
    (inputs : List Frame) (encOuts : List Feat) (seqLen : ℕ) :
    ∀ (ts : List ℕ) (acc : DrvAcc Frame Feat Skip RState),
      (∀ t ∈ ts, t < seqLen) →
      (ts.foldl (driverStep encoder rnnStep decode training tf inputs encOuts
          seqLen) acc).preds = acc.preds ∧
      (ts.foldl (driverStep encoder rnnStep decode training tf inputs encOuts
          seqLen) acc).fed = acc.fed := by
  intro ts
  induction ts with
  | nil => intro acc _; exact ⟨rfl, rfl⟩
  | cons t ts ih =>
    intro acc hts
    rw [List.foldl_cons]
    have hstep := driverStep_warm encoder rnnStep decode training tf inputs
      encOuts seqLen acc t (hts t (List.mem_cons_self _ _))
    have hrest := ih
      (driverStep encoder rnnStep decode training tf inputs encOuts seqLen
        acc t)
      (fun u hu => hts u (List.mem_cons_of_mem _ hu))
    exact ⟨hrest.1.trans hstep.1, hrest.2.trans hstep.2⟩

theorem driverStep_fed_mono {Frame Feat Skip RState : Type} [Inhabited Frame]
    [Inhabited Feat] (encoder : Frame → Feat × Skip)
    (rnnStep : Feat → RState → Feat × RState × ℚ)
    (decode : Feat → Skip → Frame) (training tf : Bool)
    (inputs : List Frame) (encOuts : List Feat) (seqLen : ℕ)
    (acc : DrvAcc Frame Feat Skip RState) (t : ℕ) :
    ∃ l, (driverStep encoder rnnStep decode training tf inputs encOuts seqLen
      acc t).fed = acc.fed ++ l := by
  by_cases h1 : t < seqLen
  · exact ⟨[], by simp [driverStep, h1]⟩
  · by_cases h2 : (tf && training) = true
    · exact ⟨[], by simp [driverStep, h1, h2]⟩
    · exact ⟨[prevPred acc.preds inputs], by simp [driverStep, h1, h2]⟩

theorem driver_fed_mono {Frame Feat Skip RState : Type} [Inhabited Frame]
    [Inhabited Feat] (encoder : Frame → Feat × Skip)
    (rnnStep : Feat → RState → Feat × RState × ℚ)
    (decode : Feat → Skip → Frame) (training tf : Bool)
    (inputs : List Frame) (encOuts : List Feat) (seqLen : ℕ) :
    ∀ (ts : List ℕ) (acc : DrvAcc Frame Feat Skip RState),
      ∃ l, (ts.foldl (driverStep encoder rnnStep decode training tf inputs
        encOuts seqLen) acc).fed = acc.fed ++ l := by
  intro ts
  induction ts with
  | nil => intro acc; exact ⟨[], by simp⟩
  | cons t ts ih =>
    intro acc
    rw [List.foldl_cons]
    obtain ⟨l1, h1⟩ := driverStep_fed_mono encoder rnnStep decode training tf
      inputs encOuts seqLen acc t
    obtain ⟨l2, h2⟩ := ih
      (driverStep encoder rnnStep decode training tf inputs encOuts seqLen
        acc t)
    exact ⟨l1 ++ l2, by rw [h2, h1, List.append_assoc]⟩

theorem fed_head_of_first {Frame Feat Skip RState : Type} [Inhabited Frame]
    [Inhabited Feat] (encoder : Frame → Feat × Skip)
    (rnnStep : Feat → RState → Feat × RState × ℚ)
    (decode : Feat → Skip → Frame) (training tf : Bool)
    (inputs : List Frame) (encOuts : List Feat) (seqLen : ℕ) (a : Frame) :
    ∀ (ts : List ℕ) (acc : DrvAcc Frame Feat Skip RState), acc.fed = [a] →
      ((ts.foldl (driverStep encoder rnnStep decode training tf inputs
        encOuts seqLen) acc).fed).head? = some a := by
  intro ts acc ha
  obtain ⟨l, hl⟩ := driver_fed_mono encoder rnnStep decode training tf inputs
    encOuts seqLen ts acc
  rw [hl, ha]
  rfl

/-- Claim C10: with teacher forcing disabled and at least one prediction
step, the first frame the driver re-encodes (at `t = input_length`, when the
predictions list is still empty) is the raw last ground-truth input frame
`input_sequence[:, -1]`, not a prior decoded prediction. -/
theorem claim_C10 {Frame Feat Skip RState : Type} [Inhabited Frame]
    [Inhabited Feat] [Inhabited Skip] (encoder : Frame → Feat × Skip)
    (rnnStep : Feat → RState → Feat × RState × ℚ)
    (decode : Feat → Skip → Frame) (training : Bool) (initState : RState)
    (inputs : List Frame) (predLength : ℕ) (hlen : 0 < inputs.length)
    (hp : 0 < predLength) :
    (rainDrive encoder rnnStep decode training false initState inputs
      predLength).fed.head? = some (inputs.getLastD default) := by
  cases predLength with
  | zero => omega
  | succ p =>
    simp only [rainDrive]
    rw [List.range_add, List.foldl_append, List.range_succ_eq_map,
      List.map_cons, List.foldl_cons]
    set init : DrvAcc Frame Feat Skip RState :=
      { rstate := initState
        preds := []
        loss := 0
        skipVar := (inputs.map (fun f => (encoder f).2)).getLastD default
        fed := [] } with hinit
    set step := driverStep encoder rnnStep decode training false inputs
      (inputs.map (fun f => (encoder f).1)) inputs.length with hstep
    set warm := (List.range inputs.length).foldl step init with hwarm
    have hw := driver_warm encoder rnnStep decode training false inputs
      (inputs.map (fun f => (encoder f).1)) inputs.length
      (List.range inputs.length) init (fun t ht => List.mem_range.mp ht)
    have hw1 : warm.preds = [] := hw.1
    have hw2 : warm.fed = [] := hw.2
    have hnlt : ¬ (inputs.length + 0 < inputs.length) := by omega
    have hfst : (step warm (inputs.length + 0)).fed =
        [inputs.getLastD default] := by
      rw [hstep]
      simp [driverStep, hnlt, prevPred, hw1, hw2]
    exact fed_head_of_first encoder rnnStep decode training false inputs
      (inputs.map (fun f => (encoder f).1)) inputs.length _ _ _ hfst

/-- Witness for C10 with trivial concrete components over `ℚ`. -/
theorem claim_C10_witness :
    0 < ([(5 : ℚ), 7] : List ℚ).length ∧ 0 < 1 ∧
    (rainDrive (fun q : ℚ => (q, q)) (fun x (s : ℚ) => (x, s, 0))
        (fun x s => x + s) false false 0 [(5 : ℚ), 7] 1).fed.head? =
      some (([(5 : ℚ), 7]).getLastD default) :=
  ⟨by decide, by decide,
    claim_C10 (fun q : ℚ => (q, q)) (fun x (s : ℚ) => (x, s, 0))
      (fun x s => x + s) false 0 [(5 : ℚ), 7] 1 (by decide) (by decide)⟩

/-! ## Decoder final activation (`UNet_Decoder.forward`) -/

/-- The channel truncation `x[:, :64, :, :]` of a 128-channel tensor. -/
def trunc64 {b h w : ℕ} (t : Tensor b 128 h w) : Tensor b 64 h w :=
  fun bi ci i j => t bi ⟨ci.val, by have := ci.isLt; omega⟩ i j

/-- `UNet_Decoder.forward`: the nearest-neighbour resize is the identity
here because the types force matching spatial dimensions; `x` (128 channels
from the rnn block) is truncated to 64 channels, concatenated with the
64-channel skip, passed through the `dec1` double conv/batchnorm/relu stack
(an external composite, abstract parameter), the 1-by-1 convolution
`upconv2`, and finally `torch.sigmoid` elementwise. -/
def unetDecoderForward {b h w : ℕ}
    (dec1 : Tensor b 128 h w → Tensor b 64 h w) (upconv2 : Conv2d 64 1 1)
    (sigmoid : ℚ → ℚ) (x : Tensor b 128 h w) (skip : Tensor b 64 h w) :
    Tensor b 1 h w :=
  tmap sigmoid (upconv2.apply 0 (dec1 (concat2 (trunc64 x) skip)))

theorem driverStep_preds_cases {Frame Feat Skip RState : Type}
    [Inhabited Frame] [Inhabited Feat] (encoder : Frame → Feat × Skip)
    (rnnStep : Feat → RState → Feat × RState × ℚ)
    (decode : Feat → Skip → Frame) (training tf : Bool)
    (inputs : List Frame) (encOuts : List Feat) (seqLen : ℕ)
    (acc : DrvAcc Frame Feat Skip RState) (t : ℕ) :
    ∀ p ∈ (driverStep encoder rnnStep decode training tf inputs encOuts
        seqLen acc t).preds,
      p ∈ acc.preds ∨ ∃ x s, p = decode x s := by
  intro p hp
  by_cases h1 : t < seqLen
  · simp only [driverStep, if_pos h1] at hp
    exact Or.inl hp
  · by_cases h2 : (tf && training) = true
    · simp only [driverStep, if_neg h1, if_pos h2] at hp
      rcases List.mem_append.mp hp with h | h
      · exact Or.inl h
      · exact Or.inr ⟨_, _, List.mem_singleton.mp h⟩
    · simp only [driverStep, if_neg h1, if_neg h2] at hp
      rcases List.mem_append.mp hp with h | h
      · exact Or.inl h
      · exact Or.inr ⟨_, _, List.mem_singleton.mp h⟩

theorem driver_preds_cases {Frame Feat Skip RState : Type} [Inhabited Frame]
    [Inhabited Feat] (encoder : Frame → Feat × Skip)
    (rnnStep : Feat → RState → Feat × RState × ℚ)
    (decode : Feat → Skip → Frame) (training tf : Bool)
    (inputs : List Frame) (encOuts : List Feat) (seqLen : ℕ) :
    ∀ (ts : List ℕ) (acc : DrvAcc Frame Feat Skip RState),
      ∀ p ∈ (ts.foldl (driverStep encoder rnnStep decode training tf inputs
        encOuts seqLen) acc).preds,
        p ∈ acc.preds ∨ ∃ x s, p = decode x s := by
  intro ts
  induction ts with
  | nil => intro acc p hp; exact Or.inl hp
  | cons t ts ih =>
    intro acc p hp
    rw [List.foldl_cons] at hp
    rcases ih (driverStep encoder rnnStep decode training tf inputs encOuts
        seqLen acc t) p hp with hin | hdec
    · exact driverStep_preds_cases encoder rnnStep decode training tf inputs
        encOuts seqLen acc t p hin
    · exact Or.inr hdec

/-- Claim C9: every element of every prediction the driver returns lies
strictly inside `(0, 1)`, because each prediction is produced by the
decoder whose final activation is an elementwise sigmoid (any library
activation valued in `(0, 1)`). -/
theorem claim_C9 {RState : Type} (b h w : ℕ)
    (encoder : Tensor b 1 h w → Tensor b 128 h w × Tensor b 64 h w)
    (rnnStep : Tensor b 128 h w → RState →
      Tensor b 128 h w × RState × ℚ)
    (dec1 : Tensor b 128 h w → Tensor b 64 h w) (upconv2 : Conv2d 64 1 1)
    (sigmoid : ℚ → ℚ) (training teacherForcing : Bool) (initState : RState)
    (inputs : List (Tensor b 1 h w)) (predLength : ℕ)
    (hsig : ∀ q, 0 < sigmoid q ∧ sigmoid q < 1) :
    ∀ p ∈ (rainForward encoder rnnStep
        (unetDecoderForward dec1 upconv2 sigmoid) training teacherForcing
        initState inputs predLength).1,
      ∀ (bi : Fin b) (ci : Fin 1) (i : Fin h) (j : Fin w),
        0 < p bi ci i j ∧ p bi ci i j < 1 := by
  intro p hp bi ci i j
  have hp2 : p ∈ ((List.range (inputs.length + predLength)).foldl
      (driverStep encoder rnnStep (unetDecoderForward dec1 upconv2 sigmoid)
        training teacherForcing inputs
        (inputs.map (fun f => (encoder f).1)) inputs.length)
      { rstate := initState
        preds := []
        loss := 0
        skipVar := (inputs.map (fun f => (encoder f).2)).getLastD default
        fed := [] }).preds := hp
  rcases driver_preds_cases encoder rnnStep
      (unetDecoderForward dec1 upconv2 sigmoid) training teacherForcing
      inputs (inputs.map (fun f => (encoder f).1)) inputs.length
      (List.range (inputs.length + predLength)) _ p hp2 with hin | ⟨x, s, rfl⟩
  · cases hin
  · exact hsig _

/-- Witness for C9 with trivial components and the constant one-half
activation standing in for the sigmoid. -/
theorem claim_C9_witness :
    (∀ q : ℚ, 0 < (fun _ : ℚ => (1 : ℚ) / 2) q ∧
      (fun _ : ℚ => (1 : ℚ) / 2) q < 1) ∧
    ∀ p ∈ (rainForward (fun _ : Tensor 1 1 1 1 =>
        ((0 : Tensor 1 128 1 1), (0 : Tensor 1 64 1 1)))
        (fun x (s : Unit) => (x, s, 0))
        (unetDecoderForward (fun _ => (0 : Tensor 1 64 1 1))
          (zeroConv 64 1 1) (fun _ => (1 : ℚ) / 2)) false false ()
        [(0 : Tensor 1 1 1 1)] 1).1,
      ∀ (bi : Fin 1) (ci : Fin 1) (i : Fin 1) (j : Fin 1),
        0 < p bi ci i j ∧ p bi ci i j < 1 :=
  ⟨fun q => ⟨by norm_num, by norm_num⟩,
    claim_C9 1 1 1 (fun _ => ((0 : Tensor 1 128 1 1), (0 : Tensor 1 64 1 1)))
      (fun x s => (x, s, 0)) (fun _ => (0 : Tensor 1 64 1 1))
      (zeroConv 64 1 1) (fun _ => (1 : ℚ) / 2) false false ()
      [(0 : Tensor 1 1 1 1)] 1 (fun q => ⟨by norm_num, by norm_num⟩)⟩

end RainPred
